import Mathlib

/-!
Shallow embedding of the FileExp translation pipeline.

Sources embedded here:
- the Electron main process (translation cache, script detector,
  `translateFilename`, batch scheduler `scheduleTranslationProcessing` /
  `processQueue`, `normalizeTranslationConfig`);
- `scripts/ollama-https-server.js` (two gateway variants: `applySubstitutions`,
  `callOllama`, the `/translate` handler) and the bulk generator
  (`generate-translations` style `run`: scan loop, resume skip, batch loop).

Strings are modelled as `List Char` (JS strings are sequences of UTF-16 units;
none of the claims depend on surrogate pairs, and every code point involved is
in the BMP, so one `Char` per JS char is faithful here). Asynchronous code is
modelled by explicit state passing: the batch loop of the scheduler becomes a
fuel-indexed recursion producing one `RoundLog` per loop iteration, and
provider calls become a pure oracle `Nat → List Char → ProviderOutcome` indexed
by round number so that an outcome may change between retry rounds. Within one
batch the JS code runs every item's synchronous prologue (extension split,
script check, cache lookup) before any provider response is observed, and the
cache writes of the settled calls are interleaved in some settlement order; the
embedding runs all prologues against the batch's starting cache and then
linearises the provider calls in batch order, which agrees with the JS
semantics except for the unobserved write order among duplicate base names in
a single batch.
-/

/-- Script detector from the main process:
`isJapanese = (value) => /[぀-ヿ㐀-䶿一-龯]/.test(value)`.
A character matches when its code point lies in one of the three ranges. -/
def isJapaneseChar (c : Char) : Bool :=
  (decide (0x3040 ≤ c.toNat) && decide (c.toNat ≤ 0x30ff)) ||
  (decide (0x3400 ≤ c.toNat) && decide (c.toNat ≤ 0x4dbf)) ||
  (decide (0x4e00 ≤ c.toNat) && decide (c.toNat ≤ 0x9faf))

/-- Regex `.test`: true iff some character of the string matches the class. -/
def isJapanese (s : List Char) : Bool := s.any isJapaneseChar

/-- Scan state of Node's `path.extname` loop (posix variant): `startDot`,
`startPart`, `end`, `matchedSlash`, `preDotState` exactly as in Node's
`path.js`. -/
structure ExtScanState where
  startDot : Option Nat
  startPart : Nat
  endIdx : Option Nat
  matchedSlash : Bool
  preDotState : Int
deriving DecidableEq

/-- Node `path.extname` scanning loop, transcribed from Node's `path.js`. The
first argument is the reversed character list (the loop walks the string from
its last character to its first), the second the index of the current
character. -/
def extScanLoop : List Char → Nat → ExtScanState → ExtScanState
  | [], _, st => st
  | c :: rest, i, st =>
    if c = '/' then
      if st.matchedSlash = false then
        ⟨st.startDot, i + 1, st.endIdx, st.matchedSlash, st.preDotState⟩
      else
        extScanLoop rest (i - 1) st
    else
      let st1 : ExtScanState :=
        if st.endIdx = none then
          ⟨st.startDot, st.startPart, some (i + 1), false, st.preDotState⟩
        else st
      let st2 : ExtScanState :=
        if c = '.' then
          if st1.startDot = none then
            ⟨some i, st1.startPart, st1.endIdx, st1.matchedSlash, st1.preDotState⟩
          else if st1.preDotState ≠ 1 then
            ⟨st1.startDot, st1.startPart, st1.endIdx, st1.matchedSlash, 1⟩
          else st1
        else if st1.startDot ≠ none then
          ⟨st1.startDot, st1.startPart, st1.endIdx, st1.matchedSlash, -1⟩
        else st1
      extScanLoop rest (i - 1) st2

/-- Node `path.extname`: the final slice decision after the scan loop,
returning the empty string when no dot was found, when the dot opens the last
path component (`preDotState = 0`), or when the component is exactly `..`. -/
def extname (s : List Char) : List Char :=
  let st := extScanLoop s.reverse (s.length - 1) ⟨none, 0, none, true, 0⟩
  match st.startDot, st.endIdx with
  | some sd, some e =>
    if st.preDotState = 0 then []
    else if st.preDotState = 1 ∧ sd = e - 1 ∧ sd = st.startPart + 1 then []
    else (s.drop sd).take (e - sd)
  | _, _ => []

/-- Base-name split of `translateFilename` and of the bulk generator:
`extension ? filename.slice(0, -extension.length) : filename`. -/
def baseOf (fn : List Char) : List Char :=
  let extn := extname fn
  if extn = [] then fn else fn.take (fn.length - extn.length)

/-- Translation cache: a `Map` from base name to translated text, modelled as
an insertion-ordered association list. -/
abbrev Cache := List (List Char × List Char)

/-- Map lookup (`translationCache.get` / `.has`). -/
def cacheGet : Cache → List Char → Option (List Char)
  | [], _ => none
  | (k', v) :: rest, k => if k' = k then some v else cacheGet rest k

/-- Map insertion (`translationCache.set`): replaces the binding when the key
is present, appends otherwise. -/
def cacheSet : Cache → List Char → List Char → Cache
  | [], k, v => [(k, v)]
  | (k', v') :: rest, k, v =>
    if k' = k then (k, v) :: rest else (k', v') :: cacheSet rest k v

/-- Status code attached to a provider error, as sniffed by
`error?.response?.status || error?.status || error?.code`: a number, a string
code, or absent. -/
inductive JsStatusCode where
  | num (n : Nat)
  | str (s : List Char)
  | undef
deriving DecidableEq

/-- JS template coercion of a status code to a string, as in
a template literal around `statusCode`. -/
def statusCodeText : JsStatusCode → List Char
  | .num n => Nat.toDigits 10 n
  | .str s => s
  | .undef => ['u', 'n', 'd', 'e', 'f', 'i', 'n', 'e', 'd']

/-- Rate-limit classification from `translateFilename`:
`statusCode === 429 || String(statusCode) === '429'`. -/
def isRateLimitedCode (c : JsStatusCode) : Bool :=
  decide (c = JsStatusCode.num 429) || decide (statusCodeText c = ['4', '2', '9'])

/-- Outcome of one provider call as observed by `translateFilename`: either
`result.text` or a thrown error with a message and the sniffed status code. -/
inductive ProviderOutcome where
  | success (text : List Char)
  | failure (message : List Char) (code : JsStatusCode)
deriving DecidableEq

/-- Whether an outcome is classified as rate limited. -/
def outcomeRateLimited : ProviderOutcome → Bool
  | .success _ => false
  | .failure _ code => isRateLimitedCode code

/-- Resolution value of `translateFilename`: the fields of the object the
promise resolves with. -/
structure TransResult where
  original : List Char
  translated : Option (List Char)
  rateLimited : Bool
  error : Option (List Char)
deriving DecidableEq

/-- Synchronous prologue of `translateFilename`: everything executed before
the first `await` — extension split, script check, cache lookup. -/
inductive SyncStep where
  | early (r : TransResult)
  | callProvider (base extn : List Char)
deriving DecidableEq

/-- Synchronous prologue of `translateFilename` on a given cache. A cache hit
resolves `cached ? cached + extension : null` (an empty cached string is falsy
and resolves to null). -/
def tfSync (cache : Cache) (fn : List Char) : SyncStep :=
  let extn := extname fn
  let base := baseOf fn
  if isJapanese base = false then
    .early ⟨fn, none, false, none⟩
  else
    match cacheGet cache base with
    | some cached =>
      .early ⟨fn, if cached = [] then none else some (cached ++ extn), false, none⟩
    | none => .callProvider base extn

/-- Continuation of `translateFilename` after the provider settles: the
resolution value together with the cache insertion to perform (the cache is
only written on success). -/
def tfFinish (fn base extn : List Char) :
    ProviderOutcome → TransResult × Option (List Char)
  | .success text => (⟨fn, some (text ++ extn), false, none⟩, some text)
  | .failure msg code =>
    if isRateLimitedCode code then (⟨fn, none, true, some msg⟩, none)
    else (⟨fn, none, false, some msg⟩, none)

/-- Whole `translateFilename` call against a fixed provider oracle: returns
the resolution value, the cache after the call, and whether the provider was
invoked. -/
def translateFilename (provider : List Char → ProviderOutcome) (cache : Cache)
    (fn : List Char) : TransResult × Cache × Bool :=
  match tfSync cache fn with
  | .early r => (r, cache, false)
  | .callProvider base extn =>
    let fin := tfFinish fn base extn (provider base)
    match fin.2 with
    | some text => (fin.1, cacheSet cache base text, true)
    | none => (fin.1, cache, true)

/-- Batch scheduler configuration as used by `processQueue` (already
normalized, hence natural numbers). -/
structure BatchConfig where
  batchSize : Nat
  batchDelayMs : Nat
  rateLimitDelayMs : Nat
deriving DecidableEq

/-- Log of one iteration of the scheduler's `while` loop. `delay` is the wait
performed at the end of the iteration (0 when the loop breaks on an empty
queue or when no wait happens). -/
structure RoundLog where
  batch : List (List Char)
  resolvedR : List (List Char × TransResult)
  retried : List (List Char)
  rateLimited : Bool
  delay : Nat
  providerCalls : Nat
deriving DecidableEq

/-- Scheduler state: the pending queue of filenames and the translation
cache. -/
structure SchedState where
  queue : List (List Char)
  cache : Cache
deriving DecidableEq

/-- Settlement of a batch whose synchronous prologues ran already: performs
the provider call of every `callProvider` item and threads the cache writes,
returning the per-item results, the final cache and the number of provider
calls. -/
def runBatchAux (provider : Nat → List Char → ProviderOutcome) (rnd : Nat) :
    List (List Char × SyncStep) → Cache →
    List (List Char × TransResult) × Cache × Nat
  | [], cache => ([], cache, 0)
  | (fn, SyncStep.early r) :: rest, cache =>
    let tail := runBatchAux provider rnd rest cache
    ((fn, r) :: tail.1, tail.2.1, tail.2.2)
  | (fn, SyncStep.callProvider base extn) :: rest, cache =>
    let fin := tfFinish fn base extn (provider rnd base)
    let cache' := match fin.2 with
      | some text => cacheSet cache base text
      | none => cache
    let tail := runBatchAux provider rnd rest cache'
    ((fn, fin.1) :: tail.1, tail.2.1, tail.2.2 + 1)

/-- One batch of `processQueue`: every item's synchronous prologue runs
against the batch's starting cache (all run before any provider response is
observed), then the provider calls settle. -/
def runBatch (provider : Nat → List Char → ProviderOutcome) (rnd : Nat)
    (cache : Cache) (batch : List (List Char)) :
    List (List Char × TransResult) × Cache × Nat :=
  runBatchAux provider rnd (batch.map (fun fn => (fn, tfSync cache fn))) cache

/-- One iteration of the scheduler's `while` loop:
`splice(0, batchSize)`, settle the batch, partition rate-limited items,
`unshift` them back at the head, and pick the end-of-round delay
(`rateLimitDelayMs` when some item was rate limited, else `batchDelayMs`,
else no wait when the queue emptied). -/
def schedStep (cfg : BatchConfig) (provider : Nat → List Char → ProviderOutcome)
    (rnd : Nat) (st : SchedState) : RoundLog × SchedState :=
  let batch := st.queue.take cfg.batchSize
  let rest := st.queue.drop cfg.batchSize
  let settled := runBatch provider rnd st.cache batch
  let results := settled.1
  let retried := (results.filter (fun p => p.2.rateLimited)).map (fun p => p.1)
  let resolved := results.filter (fun p => p.2.rateLimited = false)
  let rl := results.any (fun p => p.2.rateLimited)
  let queue' := retried ++ rest
  let delay := if queue' = [] then 0
    else if rl then cfg.rateLimitDelayMs else cfg.batchDelayMs
  (⟨batch, resolved, retried, rl, delay, settled.2.2⟩, ⟨queue', settled.2.1⟩)

/-- Scheduler drain loop (`processQueue`), indexed by fuel: one unit of fuel
per loop iteration, enough fuel given that each round removes at least one
item unless every batch item is rate limited forever. -/
def processQueue (cfg : BatchConfig) (provider : Nat → List Char → ProviderOutcome) :
    Nat → Nat → SchedState → List RoundLog × SchedState
  | 0, _, st => ([], st)
  | fuel + 1, rnd, st =>
    if st.queue = [] then ([], st)
    else
      let step := schedStep cfg provider rnd st
      let tail := processQueue cfg provider fuel (rnd + 1) step.2
      (step.1 :: tail.1, tail.2)

/-- Replacement core of `applySubstitutions` with explicit fuel (one unit per
consumed character, so `text.length` units suffice; the fuel-exhausted branch
is unreachable): `updated.split(key).join(value)` replaces every
non-overlapping occurrence of the (nonempty) key `k :: ks` by `val`, scanning
left to right. -/
def splitJoinFuel (k : Char) (ks val : List Char) : Nat → List Char → List Char
  | _, [] => []
  | 0, t => t
  | fuel + 1, c :: rest =>
    if (k :: ks).isPrefixOf (c :: rest) then
      val ++ splitJoinFuel k ks val fuel (rest.drop ks.length)
    else
      c :: splitJoinFuel k ks val fuel rest

/-- Replacement of every non-overlapping occurrence of `k :: ks` by `val`,
the semantics of `text.split(key).join(value)` for a nonempty key. -/
def splitJoin (k : Char) (ks val t : List Char) : List Char :=
  splitJoinFuel k ks val t.length t

/-- Substitution table: the entries of the JSON object, in insertion order. -/
abbrev SubstTable := List (List Char × List Char)

/-- Application of one table entry inside the `forEach`: empty keys are
skipped (`if (!key) return`), otherwise every occurrence is replaced. -/
def applyKey (text : List Char) (kv : List Char × List Char) : List Char :=
  match kv.1 with
  | [] => text
  | k :: ks => splitJoin k ks kv.2 text

/-- Comparator of `applySubstitutions`:
`(a, b) => b.length - a.length` sorts keys by descending length. -/
def substLe (a b : List Char × List Char) : Prop := b.1.length ≤ a.1.length

instance : DecidableRel substLe := fun a b =>
  inferInstanceAs (Decidable (b.1.length ≤ a.1.length))

/-- Key ordering of `applySubstitutions`:
`Object.keys(substitutions).sort((a, b) => b.length - a.length)`. JS
`Array.prototype.sort` is a stable comparator sort, and the output of a stable
sort under a total preorder is unique, so any stable sort embeds it; this uses
insertion sort. -/
def orderedSubsts (subs : SubstTable) : SubstTable :=
  subs.insertionSort substLe

/-- Gateway `applySubstitutions`: the empty table returns the input unchanged,
otherwise the entries are applied longest key first over the partially
substituted text. -/
def applySubstitutions (text : List Char) (subs : SubstTable) : List Char :=
  if subs.length = 0 then text
  else (orderedSubsts subs).foldl applyKey text

/-- JS number-ish value reaching the configuration code: a finite number
(rationals cover every finite double the claims exercise), `NaN`, an infinity,
`undefined`, or a value that is not a number at all (and coerces to `NaN`
under numeric coercion). -/
inductive JsVal where
  | num (q : ℚ)
  | nan
  | posInf
  | negInf
  | undef
  | nonNumber
deriving DecidableEq

/-- Normalized scheduler configuration (`translationConfig`), whose fields are
always finite numbers. -/
structure TranslationConfigQ where
  batchSize : ℚ
  batchDelayMs : ℚ
  rateLimitDelayMs : ℚ
deriving DecidableEq

/-- Partial configuration object handed to `setTranslationConfig`: each field
may be absent, or present with any JS value. -/
structure ConfigPatch where
  batchSize : Option JsVal
  batchDelayMs : Option JsVal
  rateLimitDelayMs : Option JsVal
deriving DecidableEq

/-- Object spread `{ ...translationConfig, ...config }` on one field: a
present field (even one holding `undefined`) overrides the base value. -/
def mergeField (base : ℚ) : Option JsVal → JsVal
  | none => .num base
  | some v => v

/-- Field coercion of `normalizeTranslationConfig`:
`Number.isFinite(v) ? Math.max(lo, v) : dflt`. -/
def coerceField (dflt lo : ℚ) : JsVal → ℚ
  | .num q => max lo q
  | _ => dflt

/-- The main process `normalizeTranslationConfig`: spread-merge over the
current config, then coerce each field. -/
def normalizeTranslationConfig (base : TranslationConfigQ) (c : ConfigPatch) :
    TranslationConfigQ :=
  ⟨coerceField 100 1 (mergeField base.batchSize c.batchSize),
   coerceField 1000 0 (mergeField base.batchDelayMs c.batchDelayMs),
   coerceField 5000 0 (mergeField base.rateLimitDelayMs c.rateLimitDelayMs)⟩

/-- Numeric value of a decimal digit string. -/
def digitsVal (s : List Char) : Nat :=
  s.foldl (fun acc c => acc * 10 + (c.toNat - ('0').toNat)) 0

/-- JS `Number()` coercion of a string, restricted to the strings this
development supplies: the empty string coerces to 0, a decimal digit string to
its value, and anything else to `NaN` (an under-approximation for strings such
as `1.5` or `Infinity`, which never occur here). -/
def jsNumberOfString (s : List Char) : JsVal :=
  if s = [] then .num 0
  else if s.all (fun c => c.isDigit) then .num (digitsVal s)
  else .nan

/-- JS `Math.max(a, v)`: `NaN` (or anything coercing to `NaN`) poisons the
result to `NaN`. -/
def jsMathMax (a : ℚ) : JsVal → JsVal
  | .num q => .num (max a q)
  | .negInf => .num a
  | .posInf => .posInf
  | _ => .nan

/-- Bulk generator batch-size option from `run`:
`Math.max(1, Number(args[..] || 100))` — the default is substituted only when
the argument is absent or the empty string (falsy). -/
def genBatchSizeArg (arg : Option (List Char)) : JsVal :=
  let v := match arg with
    | none => JsVal.num 100
    | some s => if s = [] then JsVal.num 100 else jsNumberOfString s
  jsMathMax 1 v

/-- Bulk generator delay options from `run`:
`Math.max(0, Number(args[..] || dflt))`. -/
def genDelayArg (dflt : ℚ) (arg : Option (List Char)) : JsVal :=
  let v := match arg with
    | none => JsVal.num dflt
    | some s => if s = [] then JsVal.num dflt else jsNumberOfString s
  jsMathMax 0 v

/-- Outcome of the gateway's `fetch` to the model backend: a transport
failure (rejected promise, no status) or an HTTP reply with a status code and
a raw text body. -/
inductive FetchOutcome where
  | network (msg : List Char)
  | reply (status : Nat) (body : List Char)
deriving DecidableEq

/-- Fetch `Response.ok`: status in the inclusive range 200–299. -/
def respOk (status : Nat) : Bool :=
  decide (200 ≤ status) && decide (status ≤ 299)

/-- JS whitespace test for `String.prototype.trim`, restricted to the ASCII
whitespace this development supplies. -/
def isJsWs (c : Char) : Bool :=
  decide (c = ' ') || decide (c = '\t') || decide (c = '\n') || decide (c = '\r')

/-- JS `String.prototype.trim`. -/
def jsTrim (s : List Char) : List Char :=
  ((s.dropWhile isJsWs).reverse.dropWhile isJsWs).reverse

/-- The gateway's extraction `data.response?.trim() || ''`: an absent field
yields the empty string, otherwise the trimmed field (the `|| ''` fallback
maps an empty trim result to the same empty string). -/
def respField : Option (List Char) → List Char
  | none => []
  | some s => jsTrim s

/-- Message of the gateway's HTTP failure:
a template around the backend status. -/
def httpFailMsg (status : Nat) : List Char :=
  ("Ollama request failed with ").data ++ Nat.toDigits 10 status

/-- Fixed message of the first gateway variant's JSON parse failure. -/
def jsonFailMsg : List Char := ("Ollama response was not valid JSON.").data

/-- Validation message of the `/translate` handler. -/
def textRequiredMsg : List Char := ("text is required").data

/-- Classified failure of the first gateway variant's `callOllama`: HTTP
failure and parse failure both carry the backend status and raw body; a
network failure carries neither. -/
inductive GatewayErr where
  | httpErr (message : List Char) (status : Nat) (body : List Char)
  | parseErr (message : List Char) (status : Nat) (body : List Char)
  | netErr (message : List Char)
deriving DecidableEq

/-- JSON parsing of the backend body is a platform builtin; it is modelled as
an oracle returning either the parse failure's message or the parsed
document's optional string field `response`. -/
abbrev JsonOracle := List Char → Except (List Char) (Option (List Char))

/-- First gateway variant `callOllama` (after the substitution and prompt
construction, which only shape the request): classify the fetch outcome. -/
def callOllama (parse : JsonOracle) (f : FetchOutcome) :
    Except GatewayErr (List Char) :=
  match f with
  | .network msg => .error (.netErr msg)
  | .reply status body =>
    if respOk status = false then
      .error (.httpErr (httpFailMsg status) status body)
    else
      match parse body with
      | .error _ => .error (.parseErr jsonFailMsg status body)
      | .ok r => .ok (respField r)

/-- HTTP response issued by a `/translate` handler: the wire status and the
fields of the JSON body (absent JSON fields are `none`, matching
`JSON.stringify` dropping `undefined` properties). -/
structure GatewayResp where
  httpStatus : Nat
  okField : Bool
  message : Option (List Char)
  statusField : Option Nat
  bodyField : Option (List Char)
  translated : Option (List Char)
deriving DecidableEq

/-- The `text` member of the request body as the handler sees it: absent (or
any falsy non-string), present but not a string, or a string. -/
inductive ReqText where
  | absent
  | nonString
  | strVal (s : List Char)
deriving DecidableEq

/-- The handler's 400 rejection `{ ok:false, message:'text is required' }`. -/
def reject400 : GatewayResp := ⟨400, false, some textRequiredMsg, none, none, none⟩

/-- First gateway variant `/translate` handler: validation by truthiness
(`!text || typeof text !== 'string'`), then `callOllama`; a failure is sent
with `res.status(error.status || 500)` and body
`{ ok:false, message, status, body }`. -/
def handleTranslate (parse : JsonOracle) (f : FetchOutcome) (t : ReqText) :
    GatewayResp :=
  match t with
  | .absent => reject400
  | .nonString => reject400
  | .strVal s =>
    if s = [] then reject400
    else
      match callOllama parse f with
      | .ok tr => ⟨200, true, none, none, none, some tr⟩
      | .error (.httpErr m st b) =>
        ⟨if st = 0 then 500 else st, false, some m, some st, some b, none⟩
      | .error (.parseErr m st b) =>
        ⟨if st = 0 then 500 else st, false, some m, some st, some b, none⟩
      | .error (.netErr m) => ⟨500, false, some m, none, none, none⟩

/-- Classified failure of the second gateway variant's `callOllama`: its parse
failure is the bare `SyntaxError` of `response.json()`, carrying neither
status nor body. -/
inductive GatewayErr2 where
  | httpErr (message : List Char) (status : Nat) (body : List Char)
  | parseErr (message : List Char)
  | netErr (message : List Char)
deriving DecidableEq

/-- Second gateway variant `callOllama`. -/
def callOllama2 (parse : JsonOracle) (f : FetchOutcome) :
    Except GatewayErr2 (List Char) :=
  match f with
  | .network msg => .error (.netErr msg)
  | .reply status body =>
    if respOk status = false then
      .error (.httpErr (httpFailMsg status) status body)
    else
      match parse body with
      | .error pm => .error (.parseErr pm)
      | .ok r => .ok (respField r)

/-- Second gateway variant `/translate` handler: identical validation, but
every failure is sent with `res.status(500)` regardless of the backend
status, which only survives in the body's `status` field. -/
def handleTranslate2 (parse : JsonOracle) (f : FetchOutcome) (t : ReqText) :
    GatewayResp :=
  match t with
  | .absent => reject400
  | .nonString => reject400
  | .strVal s =>
    if s = [] then reject400
    else
      match callOllama2 parse f with
      | .ok tr => ⟨200, true, none, none, none, some tr⟩
      | .error (.httpErr m st b) => ⟨500, false, some m, some st, some b, none⟩
      | .error (.parseErr m) => ⟨500, false, some m, none, none, none⟩
      | .error (.netErr m) => ⟨500, false, some m, none, none, none⟩

/-- Status literals of the translation database. -/
def statusTranslated : List Char := ("translated").data

/-- Status literal recorded for names without target-script characters. -/
def statusSkipped : List Char := ("skipped").data

/-- Status literal recorded for non-rate-limited provider failures. -/
def statusFailed : List Char := ("failed").data

/-- Translation database entry: the object shape written by `updateEntry`.
`updated_at` holds the serialized timestamp, supplied to the model as an
opaque string. -/
structure DbEntry where
  file_path : List Char
  file_name : List Char
  translated_name : Option (List Char)
  status : List Char
  error_message : Option (List Char)
  updated_at : List Char
deriving DecidableEq

/-- The generator's `entryMap`: a `Map` keyed by `file_path`, modelled as an
insertion-ordered association list. -/
abbrev EntryMap := List (List Char × DbEntry)

/-- Entry map lookup (`entryMap.get`). -/
def emGet : EntryMap → List Char → Option DbEntry
  | [], _ => none
  | (k', v) :: rest, k => if k' = k then some v else emGet rest k

/-- Entry map insertion (`entryMap.set`). Every `updateEntry` call site passes
a complete payload, so the spread merge with the existing entry is the payload
itself. -/
def emSet : EntryMap → List Char → DbEntry → EntryMap
  | [], k, v => [(k, v)]
  | (k', v') :: rest, k, v =>
    if k' = k then (k, v) :: rest else (k', v') :: emSet rest k v

/-- Node `path.basename` on a posix path: the part after the last slash, with
trailing slashes ignored. -/
def pathBasename (p : List Char) : List Char :=
  let stripped := (p.reverse.dropWhile (fun c => decide (c = '/'))).reverse
  if stripped = [] then (if p = [] then [] else ['/'])
  else (stripped.reverse.takeWhile (fun c => decide (¬ c = '/'))).reverse

/-- Loading loop over `existingEntries`: entries whose `file_path` is falsy
(the empty string) are not indexed. -/
def buildEntryMap (entries : List DbEntry) : EntryMap :=
  entries.foldl (fun m e => if e.file_path = [] then m else emSet m e.file_path e) []

/-- Work item pushed onto `toTranslate` by the scan loop. -/
structure TransItem where
  filePath : List Char
  fileName : List Char
  baseName : List Char
  extn : List Char
deriving DecidableEq

/-- One iteration of the generator's scan loop over discovered files: resume
skip when an entry with the same `file_name` and status `translated` exists,
a `skipped` record when the base name has no target-script character,
otherwise a `toTranslate` item. -/
def scanStep (now : List Char) (em : EntryMap) (filePath : List Char) :
    EntryMap × List TransItem :=
  let fileName := pathBasename filePath
  let extn := extname fileName
  let baseName := if extn = [] then fileName
    else fileName.take (fileName.length - extn.length)
  let resume := match emGet em filePath with
    | some e => decide (e.file_name = fileName) && decide (e.status = statusTranslated)
    | none => false
  if resume = true then (em, [])
  else if isJapanese baseName = false then
    (emSet em filePath ⟨filePath, fileName, none, statusSkipped, none, now⟩, [])
  else (em, [⟨filePath, fileName, baseName, extn⟩])

/-- Generator scan loop over the walked file list. -/
def scanFiles (now : List Char) : EntryMap → List (List Char) → EntryMap × List TransItem
  | em, [] => (em, [])
  | em, fp :: rest =>
    let step := scanStep now em fp
    let tail := scanFiles now step.1 rest
    (tail.1, step.2 ++ tail.2)

/-- One provider attempt of the generator's batch loop: record a `translated`
entry on success, ask for a retry on a rate-limited failure (no record), and
record a `failed` entry otherwise. -/
def genAttempt (now : List Char) (o : ProviderOutcome) (em : EntryMap)
    (item : TransItem) : EntryMap × Bool :=
  match o with
  | .success text =>
    (emSet em item.filePath
      ⟨item.filePath, item.fileName, some (text ++ item.extn),
        statusTranslated, none, now⟩, false)
  | .failure msg code =>
    if isRateLimitedCode code then (em, true)
    else
      (emSet em item.filePath
        ⟨item.filePath, item.fileName, none, statusFailed, some msg, now⟩, false)

/-- One `Promise.all` wave over the pending items of a batch: returns the
updated map, the rate-limited items to retry, and the file paths for which a
provider call was issued. -/
def genWave (provider : Nat → List Char → ProviderOutcome) (t : Nat)
    (now : List Char) : EntryMap → List TransItem →
    EntryMap × List TransItem × List (List Char)
  | em, [] => (em, [], [])
  | em, item :: rest =>
    let a := genAttempt now (provider t item.baseName) em item
    let tail := genWave provider t now a.1 rest
    (tail.1, (if a.2 then [item] else []) ++ tail.2.1, item.filePath :: tail.2.2)

/-- Inner `while (pending.length > 0)` retry loop of one batch, indexed by a
wave counter `t` and fuel (the loop runs forever under sustained rate
limiting, so fuel bounds the modelled prefix): returns the map, the issued
provider-call paths, and the next wave counter. -/
def genPending (provider : Nat → List Char → ProviderOutcome) (now : List Char) :
    Nat → Nat → EntryMap → List TransItem →
    EntryMap × List (List Char) × Nat
  | 0, t, em, _ => (em, [], t)
  | _ + 1, t, em, [] => (em, [], t)
  | fuel + 1, t, em, pending =>
    let w := genWave provider t now em pending
    let tail := genPending provider now fuel (t + 1) w.1 w.2.1
    (tail.1, w.2.2 ++ tail.2.1, tail.2.2)

/-- Outer batch loop of the generator (`for i += batchSize` with the inline
retry loop per batch). -/
def genBatches (provider : Nat → List Char → ProviderOutcome) (now : List Char)
    (fuelW bs : Nat) : Nat → Nat → EntryMap → List TransItem →
    EntryMap × List (List Char)
  | 0, _, em, _ => (em, [])
  | _ + 1, _, em, [] => (em, [])
  | fuelB + 1, t, em, items =>
    let p := genPending provider now fuelW t em (items.take bs)
    let tail := genBatches provider now fuelW bs fuelB p.2.2 p.1 (items.drop bs)
    (tail.1, p.2.1 ++ tail.2)

/-- Whole generator `run` after argument parsing: build the entry map from the
loaded database, scan the walked files, and (unless nothing needs translation)
run the batch loop. Returns the final entry map (whose values are serialized
as the output database) and every file path for which a provider call was
issued. -/
def genRun (provider : Nat → List Char → ProviderOutcome) (now : List Char)
    (fuelW fuelB bs : Nat) (entries : List DbEntry) (files : List (List Char)) :
    EntryMap × List (List Char) :=
  let scan := scanFiles now (buildEntryMap entries) files
  if scan.2 = [] then (scan.1, [])
  else genBatches provider now fuelW bs fuelB 0 scan.1 scan.2

instance : IsTotal (List Char × List Char) substLe :=
  ⟨fun a b => le_total b.1.length a.1.length⟩

instance : IsTrans (List Char × List Char) substLe :=
  ⟨fun _ _ _ h1 h2 => le_trans h2 h1⟩

/-- C9: a POST to `/translate` whose body carries `text` present and of string
type but equal to the empty string is rejected with
`400 { ok:false, message:"text is required" }`, the same response as an absent
or non-string `text` — the validation predicate is truthiness, not only
presence and type. Both gateway variants validate identically. -/
theorem translate_empty_text_rejected (parse : JsonOracle) (f : FetchOutcome) :
    handleTranslate parse f (ReqText.strVal []) = reject400
    ∧ handleTranslate parse f ReqText.absent = reject400
    ∧ handleTranslate parse f ReqText.nonString = reject400
    ∧ reject400.httpStatus = 400
    ∧ reject400.okField = false
    ∧ reject400.message = some textRequiredMsg
    ∧ handleTranslate2 parse f (ReqText.strVal []) = reject400 :=
  ⟨rfl, rfl, rfl, rfl, rfl, rfl, rfl⟩

/-- C5 counterexample: against the second gateway variant, a backend failure
carrying status 404 is answered with HTTP status 500, not the backend's
status code, refuting the claim as stated (the backend status survives only
in the body's `status` field). -/
theorem gateway_status_propagation_cex :
    (handleTranslate2 (fun _ => Except.ok none)
      (FetchOutcome.reply 404 ['n', 'f']) (ReqText.strVal ['h', 'i'])).httpStatus = 500
    ∧ ¬ (handleTranslate2 (fun _ => Except.ok none)
      (FetchOutcome.reply 404 ['n', 'f']) (ReqText.strVal ['h', 'i'])).httpStatus = 404
    ∧ (handleTranslate2 (fun _ => Except.ok none)
      (FetchOutcome.reply 404 ['n', 'f']) (ReqText.strVal ['h', 'i'])).statusField
        = some 404 := by
  decide

/-- C5 (amended): the first gateway variant's `/translate` handler answers a
backend failure with the backend's status code (or 500 when the failure
carries none) and body `{ ok:false, message, status, body }`, and surfaces a
backend body that fails to parse as a distinct failure; the second variant
resolves every failure path too, but always with HTTP status 500, the backend
status surviving only in the body's `status` field. No failure path escapes
the handler. -/
theorem gateway_backend_failure_response (parse : JsonOracle)
    (s body m : List Char) (status : Nat) (hs : s ≠ []) :
    (respOk status = false →
      handleTranslate parse (FetchOutcome.reply status body) (ReqText.strVal s)
        = ⟨if status = 0 then 500 else status, false, some (httpFailMsg status),
           some status, some body, none⟩)
    ∧ handleTranslate parse (FetchOutcome.network m) (ReqText.strVal s)
        = ⟨500, false, some m, none, none, none⟩
    ∧ (respOk status = true → parse body = Except.error m →
      handleTranslate parse (FetchOutcome.reply status body) (ReqText.strVal s)
        = ⟨status, false, some jsonFailMsg, some status, some body, none⟩)
    ∧ (respOk status = false →
      handleTranslate2 parse (FetchOutcome.reply status body) (ReqText.strVal s)
        = ⟨500, false, some (httpFailMsg status), some status, some body, none⟩)
    ∧ handleTranslate2 parse (FetchOutcome.network m) (ReqText.strVal s)
        = ⟨500, false, some m, none, none, none⟩
    ∧ (respOk status = true → parse body = Except.error m →
      handleTranslate2 parse (FetchOutcome.reply status body) (ReqText.strVal s)
        = ⟨500, false, some m, none, none, none⟩) := by
  refine ⟨fun hbad => ?_, ?_, fun hok hp => ?_, fun hbad => ?_, ?_, fun hok hp => ?_⟩
  · simp [handleTranslate, callOllama, hs, hbad]
  · simp [handleTranslate, callOllama, hs]
  · have hnz : ¬ status = 0 := by
      intro h0
      rw [h0] at hok
      simp [respOk] at hok
    simp [handleTranslate, callOllama, hs, hok, hp, hnz]
  · simp [handleTranslate2, callOllama2, hs, hbad]
  · simp [handleTranslate2, callOllama2, hs]
  · simp [handleTranslate2, callOllama2, hs, hok, hp]

/-- C5 witness: the amended theorem applied at a concrete backend failure
(status 503), a concrete network failure, and a concrete parse failure. -/
theorem gateway_backend_failure_response_witness :
    handleTranslate (fun _ => Except.error ['e'])
      (FetchOutcome.reply 503 ['b']) (ReqText.strVal ['t'])
      = ⟨503, false, some (httpFailMsg 503), some 503, some ['b'], none⟩
    ∧ handleTranslate2 (fun _ => Except.error ['e'])
      (FetchOutcome.reply 503 ['b']) (ReqText.strVal ['t'])
      = ⟨500, false, some (httpFailMsg 503), some 503, some ['b'], none⟩
    ∧ handleTranslate (fun _ => Except.error ['e'])
      (FetchOutcome.reply 200 ['b']) (ReqText.strVal ['t'])
      = ⟨200, false, some jsonFailMsg, some 200, some ['b'], none⟩ := by
  have h := gateway_backend_failure_response (fun _ => Except.error ['e'])
    ['t'] ['b'] ['e'] 503 (by decide)
  have h200 := gateway_backend_failure_response (fun _ => Except.error ['e'])
    ['t'] ['b'] ['e'] 200 (by decide)
  refine ⟨?_, ?_, ?_⟩
  · have := h.1 (by decide)
    simpa using this
  · exact h.2.2.2.1 (by decide)
  · exact h200.2.2.1 (by decide) rfl

/-- C8 counterexample: the bulk generator's `run` coerces its batch-size
option with `Math.max(1, Number(arg || 100))`; for the non-numeric argument
`abc` the result is `NaN`, not the default 100 and not any value at all, so
invalid scheduler configuration supplied to the generator does not fall back
to the default. -/
theorem config_fallback_cex :
    genBatchSizeArg (some ['a', 'b', 'c']) = JsVal.nan
    ∧ ¬ genBatchSizeArg (some ['a', 'b', 'c']) = JsVal.num 100 := by
  decide

/-- C8 (amended): the interactive scheduler's `normalizeTranslationConfig`
coerces every configuration: the result always satisfies `batchSize ≥ 1` and
both delays `≥ 0`, any supplied non-finite field falls back to the defaults
100 / 1000 / 5000, and nothing is rejected. The bulk generator's `run`
substitutes the same defaults only for absent (or empty) arguments; a
non-numeric argument yields `NaN` instead (see the counterexample). -/
theorem normalizeTranslationConfig_coerces (base : TranslationConfigQ)
    (c : ConfigPatch) :
    1 ≤ (normalizeTranslationConfig base c).batchSize
    ∧ 0 ≤ (normalizeTranslationConfig base c).batchDelayMs
    ∧ 0 ≤ (normalizeTranslationConfig base c).rateLimitDelayMs
    ∧ (∀ v, c.batchSize = some v → (∀ q : ℚ, ¬ v = JsVal.num q) →
        (normalizeTranslationConfig base c).batchSize = 100)
    ∧ (∀ v, c.batchDelayMs = some v → (∀ q : ℚ, ¬ v = JsVal.num q) →
        (normalizeTranslationConfig base c).batchDelayMs = 1000)
    ∧ (∀ v, c.rateLimitDelayMs = some v → (∀ q : ℚ, ¬ v = JsVal.num q) →
        (normalizeTranslationConfig base c).rateLimitDelayMs = 5000)
    ∧ genBatchSizeArg none = JsVal.num 100
    ∧ genDelayArg 1000 none = JsVal.num 1000
    ∧ genDelayArg 5000 none = JsVal.num 5000 := by
  refine ⟨?_, ?_, ?_, ?_, ?_, ?_, by decide, by decide, by decide⟩
  · cases hv : mergeField base.batchSize c.batchSize <;>
      simp [normalizeTranslationConfig, coerceField, hv, le_max_left]
  · cases hv : mergeField base.batchDelayMs c.batchDelayMs <;>
      simp [normalizeTranslationConfig, coerceField, hv, le_max_left]
  · cases hv : mergeField base.rateLimitDelayMs c.rateLimitDelayMs <;>
      simp [normalizeTranslationConfig, coerceField, hv, le_max_left]
  · intro v hv hnn
    cases v with
    | num q => exact absurd rfl (hnn q)
    | _ => simp [normalizeTranslationConfig, coerceField, mergeField, hv]
  · intro v hv hnn
    cases v with
    | num q => exact absurd rfl (hnn q)
    | _ => simp [normalizeTranslationConfig, coerceField, mergeField, hv]
  · intro v hv hnn
    cases v with
    | num q => exact absurd rfl (hnn q)
    | _ => simp [normalizeTranslationConfig, coerceField, mergeField, hv]

/-- C8 witness: the amended theorem applied at the initial config and a patch
supplying `NaN` for every field (the result of `Number(unset env var)`). -/
theorem normalizeTranslationConfig_coerces_witness :
    (normalizeTranslationConfig ⟨100, 1000, 5000⟩
      ⟨some JsVal.nan, some JsVal.nan, some JsVal.nan⟩).batchSize = 100
    ∧ (normalizeTranslationConfig ⟨100, 1000, 5000⟩
      ⟨some JsVal.nan, some JsVal.nan, some JsVal.nan⟩).batchDelayMs = 1000
    ∧ (normalizeTranslationConfig ⟨100, 1000, 5000⟩
      ⟨some JsVal.nan, some JsVal.nan, some JsVal.nan⟩).rateLimitDelayMs = 5000 := by
  have h := normalizeTranslationConfig_coerces ⟨100, 1000, 5000⟩
    ⟨some JsVal.nan, some JsVal.nan, some JsVal.nan⟩
  exact ⟨h.2.2.2.1 JsVal.nan rfl (fun q hq => by cases hq),
    h.2.2.2.2.1 JsVal.nan rfl (fun q hq => by cases hq),
    h.2.2.2.2.2.1 JsVal.nan rfl (fun q hq => by cases hq)⟩

/-- C3: the substitution preprocessor applies table keys in descending
key-length order (a stable descending sort of the keys: sorted and a
permutation of the table), replacing every occurrence of each key by exact
case-sensitive substring match; for the table `AB ↦ X, A ↦ Y` and input `ABC`
the output is `XC` (the longer key wins, not `YBC`), a lower-case input is
untouched by an upper-case key (case sensitivity), and an empty table returns
the input unchanged. -/
theorem applySubstitutions_spec :
    applySubstitutions ['A', 'B', 'C'] [(['A', 'B'], ['X']), (['A'], ['Y'])] = ['X', 'C']
    ∧ ¬ applySubstitutions ['A', 'B', 'C'] [(['A', 'B'], ['X']), (['A'], ['Y'])]
        = ['Y', 'B', 'C']
    ∧ (∀ text : List Char, applySubstitutions text [] = text)
    ∧ applySubstitutions ['a', 'b'] [(['A', 'B'], ['X'])] = ['a', 'b']
    ∧ (∀ subs : SubstTable, List.Sorted substLe (orderedSubsts subs))
    ∧ (∀ subs : SubstTable, (orderedSubsts subs).Perm subs) := by
  refine ⟨by decide, by decide, fun text => rfl, by decide, ?_, ?_⟩
  · intro subs
    exact List.sorted_insertionSort substLe subs
  · intro subs
    exact List.perm_insertionSort substLe subs

theorem cacheGet_cacheSet_self (c : Cache) (k v : List Char) :
    cacheGet (cacheSet c k v) k = some v := by
  induction c with
  | nil => simp [cacheSet, cacheGet]
  | cons kv rest ih =>
    by_cases h : kv.1 = k
    · simp [cacheSet, cacheGet, h]
    · simp [cacheSet, cacheGet, h, ih]

theorem cacheGet_cacheSet_ne (c : Cache) (k k' v : List Char) (h : ¬ k' = k) :
    cacheGet (cacheSet c k' v) k = cacheGet c k := by
  induction c with
  | nil => simp [cacheSet, cacheGet, h]
  | cons kv rest ih =>
    by_cases hk : kv.1 = k'
    · simp [cacheSet, cacheGet, hk, h]
    · simp [cacheSet, cacheGet, hk, ih]

/-- C7: for every filename whose base name (extension stripped) contains no
code point in the target script's Unicode ranges, the translation operation
performs no provider call, leaves the cache untouched, and resolves with a
null translation; and the script detector returns true iff the string
contains at least one code point in the ranges. -/
theorem translate_skip_nonjapanese (provider : List Char → ProviderOutcome)
    (cache : Cache) (fn : List Char) (h : isJapanese (baseOf fn) = false) :
    translateFilename provider cache fn
      = (⟨fn, none, false, none⟩, cache, false)
    ∧ ∀ s : List Char,
        isJapanese s = true ↔ ∃ c ∈ s, isJapaneseChar c = true := by
  constructor
  · simp [translateFilename, tfSync, h]
  · intro s
    simp [isJapanese, List.any_eq_true]

/-- C7 witness: a Latin base name is skipped without a provider call, at a
provider that would succeed if consulted. -/
theorem translate_skip_nonjapanese_witness :
    translateFilename (fun _ => ProviderOutcome.success ['X']) []
      ['a', '.', 't', 'x', 't']
      = (⟨['a', '.', 't', 'x', 't'], none, false, none⟩, [], false)
    ∧ (isJapanese ['あ'] = true ↔ ∃ c ∈ ['あ'], isJapaneseChar c = true) :=
  ⟨(translate_skip_nonjapanese (fun _ => ProviderOutcome.success ['X']) []
      ['a', '.', 't', 'x', 't'] (by decide)).1,
   (translate_skip_nonjapanese (fun _ => ProviderOutcome.success ['X']) []
      ['a', '.', 't', 'x', 't'] (by decide)).2 ['あ']⟩

/-- C2: translating the same base name twice through the cache issues no
second provider call once a result was cached and the second request resolves
from the cache; a cache entry, once set, is never overwritten by
`translateFilename` (the write happens only on a miss, so existing bindings
survive); and a failed provider attempt caches nothing, so a retry consults
the provider again. -/
theorem translate_cache_write_once (provider : List Char → ProviderOutcome)
    (cache : Cache) (fn : List Char) :
    (∀ text, provider (baseOf fn) = ProviderOutcome.success text →
      (translateFilename provider
        (translateFilename provider cache fn).2.1 fn).2.2 = false
      ∧ (¬ text = [] →
        (translateFilename provider
          (translateFilename provider cache fn).2.1 fn).1.translated
          = (translateFilename provider cache fn).1.translated))
    ∧ (∀ k v, cacheGet cache k = some v →
        cacheGet (translateFilename provider cache fn).2.1 k = some v)
    ∧ (∀ msg code, provider (baseOf fn) = ProviderOutcome.failure msg code →
        (translateFilename provider cache fn).2.1 = cache
        ∧ ((translateFilename provider cache fn).2.2 = true →
          (translateFilename provider
            (translateFilename provider cache fn).2.1 fn).2.2 = true)) := by
  by_cases hj : isJapanese (baseOf fn) = false
  · refine ⟨fun text hp => ?_, fun k v hk => ?_, fun msg code hp => ?_⟩
    · simp [translateFilename, tfSync, hj]
    · simpa [translateFilename, tfSync, hj] using hk
    · simp [translateFilename, tfSync, hj]
  · have hj' : isJapanese (baseOf fn) = true := by
      cases h : isJapanese (baseOf fn)
      · exact absurd h hj
      · rfl
    cases hc : cacheGet cache (baseOf fn) with
    | some cached =>
      refine ⟨fun text hp => ?_, fun k v hk => ?_, fun msg code hp => ?_⟩
      · simp [translateFilename, tfSync, hj', hc]
      · simpa [translateFilename, tfSync, hj', hc] using hk
      · simp [translateFilename, tfSync, hj', hc]
    | none =>
      refine ⟨fun text hp => ?_, fun k v hk => ?_, fun msg code hp => ?_⟩
      · constructor
        · simp [translateFilename, tfSync, tfFinish, hj', hc, hp,
            cacheGet_cacheSet_self]
        · intro hne
          simp [translateFilename, tfSync, tfFinish, hj', hc, hp,
            cacheGet_cacheSet_self, hne]
      · have hkne : ¬ (baseOf fn) = k := by
          intro he
          rw [he] at hc
          rw [hc] at hk
          cases hk
        cases hp : provider (baseOf fn) with
        | success text =>
          simpa [translateFilename, tfSync, tfFinish, hj', hc, hp,
            cacheGet_cacheSet_ne _ _ _ _ hkne] using hk
        | failure msg code =>
          by_cases hrl : isRateLimitedCode code = true <;>
            simpa [translateFilename, tfSync, tfFinish, hj', hc, hp, hrl]
              using hk
      · by_cases hrl : isRateLimitedCode code = true
        · constructor
          · simp [translateFilename, tfSync, tfFinish, hj', hc, hp, hrl]
          · intro _
            simp [translateFilename, tfSync, tfFinish, hj', hc, hp, hrl]
        · constructor
          · simp [translateFilename, tfSync, tfFinish, hj', hc, hp, hrl]
          · intro _
            simp [translateFilename, tfSync, tfFinish, hj', hc, hp, hrl]

/-- C2 witness: a Japanese base name on an empty cache, against a provider
that succeeds — the second call issues no provider call and resolves to the
same translation — and against a provider that fails without rate limiting —
nothing is cached and the retry consults the provider again. -/
theorem translate_cache_write_once_witness :
    (translateFilename (fun _ => ProviderOutcome.success ['X'])
      (translateFilename (fun _ => ProviderOutcome.success ['X']) []
        ['あ', '.', 'j', 'p', 'g']).2.1 ['あ', '.', 'j', 'p', 'g']).2.2 = false
    ∧ (translateFilename (fun _ => ProviderOutcome.success ['X'])
      (translateFilename (fun _ => ProviderOutcome.success ['X']) []
        ['あ', '.', 'j', 'p', 'g']).2.1 ['あ', '.', 'j', 'p', 'g']).1.translated
      = (translateFilename (fun _ => ProviderOutcome.success ['X']) []
        ['あ', '.', 'j', 'p', 'g']).1.translated
    ∧ (translateFilename
        (fun _ => ProviderOutcome.failure ['b'] JsStatusCode.undef) []
        ['あ', '.', 'j', 'p', 'g']).2.1 = []
    ∧ (translateFilename
        (fun _ => ProviderOutcome.failure ['b'] JsStatusCode.undef)
        (translateFilename
          (fun _ => ProviderOutcome.failure ['b'] JsStatusCode.undef) []
          ['あ', '.', 'j', 'p', 'g']).2.1 ['あ', '.', 'j', 'p', 'g']).2.2 = true := by
  have hs := translate_cache_write_once
    (fun _ => ProviderOutcome.success ['X']) [] ['あ', '.', 'j', 'p', 'g']
  have hf := translate_cache_write_once
    (fun _ => ProviderOutcome.failure ['b'] JsStatusCode.undef) []
    ['あ', '.', 'j', 'p', 'g']
  refine ⟨(hs.1 ['X'] rfl).1, (hs.1 ['X'] rfl).2 (by decide), ?_, ?_⟩
  · exact (hf.2.2 ['b'] JsStatusCode.undef rfl).1
  · exact (hf.2.2 ['b'] JsStatusCode.undef rfl).2 (by decide)

theorem baseOf_of_extname (b e : List Char) (h : extname (b ++ e) = e) :
    baseOf (b ++ e) = b := by
  unfold baseOf
  rw [h]
  by_cases he : e = []
  · simp [he]
  · rw [if_neg he]
    have hlen : (b ++ e).length - e.length = b.length := by
      simp [List.length_append]
    rw [hlen, List.take_left]

/-- C10: the translation cache is keyed by the base name alone and stores the
translated base text without any extension; a cache hit appends the current
request's own extension, so two filenames sharing a base name but differing in
extension trigger one provider call and each resolves with its own extension;
and a cached empty string resolves to a null translation without a provider
call. -/
theorem cache_keyed_by_base (provider : List Char → ProviderOutcome)
    (cache : Cache) (b e1 e2 text : List Char)
    (h1 : extname (b ++ e1) = e1) (h2 : extname (b ++ e2) = e2)
    (hj : isJapanese b = true) (hc : cacheGet cache b = none)
    (hp : provider b = ProviderOutcome.success text) :
    (translateFilename provider cache (b ++ e1)).2.2 = true
    ∧ (translateFilename provider cache (b ++ e1)).1.translated
        = some (text ++ e1)
    ∧ cacheGet (translateFilename provider cache (b ++ e1)).2.1 b = some text
    ∧ (translateFilename provider
        (translateFilename provider cache (b ++ e1)).2.1 (b ++ e2)).2.2 = false
    ∧ (translateFilename provider
        (translateFilename provider cache (b ++ e1)).2.1 (b ++ e2)).1.translated
        = (if text = [] then none else some (text ++ e2))
    ∧ (∀ cache2 : Cache, cacheGet cache2 b = some [] →
        translateFilename provider cache2 (b ++ e1)
          = (⟨b ++ e1, none, false, none⟩, cache2, false)) := by
  have hb1 : baseOf (b ++ e1) = b := baseOf_of_extname b e1 h1
  have hb2 : baseOf (b ++ e2) = b := baseOf_of_extname b e2 h2
  refine ⟨?_, ?_, ?_, ?_, ?_, ?_⟩
  · simp [translateFilename, tfSync, tfFinish, hb1, h1, hj, hc, hp]
  · simp [translateFilename, tfSync, tfFinish, hb1, h1, hj, hc, hp]
  · simp [translateFilename, tfSync, tfFinish, hb1, h1, hj, hc, hp,
      cacheGet_cacheSet_self]
  · simp [translateFilename, tfSync, tfFinish, hb1, hb2, h1, h2, hj, hc, hp,
      cacheGet_cacheSet_self]
  · simp [translateFilename, tfSync, tfFinish, hb1, hb2, h1, h2, hj, hc, hp,
      cacheGet_cacheSet_self]
  · intro cache2 hc2
    simp [translateFilename, tfSync, hb2, hb1, h1, hj, hc2]

/-- C10 witness: base `あ` with extensions `.jpg` and `.png` — one provider
call, each filename resolved with its own extension — and a cached empty
string resolving to null. -/
theorem cache_keyed_by_base_witness :
    (translateFilename (fun _ => ProviderOutcome.success ['X']) []
      (['あ'] ++ ['.', 'j', 'p', 'g'])).1.translated
      = some (['X'] ++ ['.', 'j', 'p', 'g'])
    ∧ (translateFilename (fun _ => ProviderOutcome.success ['X'])
        (translateFilename (fun _ => ProviderOutcome.success ['X']) []
          (['あ'] ++ ['.', 'j', 'p', 'g'])).2.1
        (['あ'] ++ ['.', 'p', 'n', 'g'])).2.2 = false
    ∧ (translateFilename (fun _ => ProviderOutcome.success ['X'])
        (translateFilename (fun _ => ProviderOutcome.success ['X']) []
          (['あ'] ++ ['.', 'j', 'p', 'g'])).2.1
        (['あ'] ++ ['.', 'p', 'n', 'g'])).1.translated
        = some (['X'] ++ ['.', 'p', 'n', 'g'])
    ∧ translateFilename (fun _ => ProviderOutcome.success ['X'])
        [(['あ'], [])] (['あ'] ++ ['.', 'j', 'p', 'g'])
        = (⟨['あ'] ++ ['.', 'j', 'p', 'g'], none, false, none⟩,
           [(['あ'], [])], false) := by
  have h := cache_keyed_by_base (fun _ => ProviderOutcome.success ['X']) []
    ['あ'] ['.', 'j', 'p', 'g'] ['.', 'p', 'n', 'g'] ['X']
    (by decide) (by decide) (by decide) rfl rfl
  refine ⟨h.2.1, h.2.2.2.1, ?_, h.2.2.2.2.2 [(['あ'], [])] rfl⟩
  · have := h.2.2.2.2.1
    simpa using this

theorem tfSync_early_not_rl (cache : Cache) (fn : List Char) (r : TransResult)
    (h : tfSync cache fn = SyncStep.early r) : r.rateLimited = false := by
  unfold tfSync at h
  by_cases hj : isJapanese (baseOf fn) = false
  · simp only [hj, if_true, eq_self_iff_true] at h
    cases h
    rfl
  · simp only [hj, if_false] at h
    cases hc : cacheGet cache (baseOf fn) with
    | some cached =>
      rw [hc] at h
      cases h
      rfl
    | none =>
      rw [hc] at h
      cases h

theorem tfFinish_rl (fn b e : List Char) (o : ProviderOutcome) :
    (tfFinish fn b e o).1.rateLimited = outcomeRateLimited o := by
  cases o with
  | success text => rfl
  | failure msg code =>
    by_cases hrl : isRateLimitedCode code = true <;>
      simp [tfFinish, outcomeRateLimited, hrl]

theorem runBatchAux_length (provider : Nat → List Char → ProviderOutcome)
    (rnd : Nat) (steps : List (List Char × SyncStep)) (cache : Cache) :
    (runBatchAux provider rnd steps cache).1.length = steps.length := by
  induction steps generalizing cache with
  | nil => rfl
  | cons s rest ih =>
    obtain ⟨fn, step⟩ := s
    cases step with
    | early r => simp [runBatchAux, ih]
    | callProvider b e => simp [runBatchAux, ih]

theorem runBatchAux_calls_le (provider : Nat → List Char → ProviderOutcome)
    (rnd : Nat) (steps : List (List Char × SyncStep)) (cache : Cache) :
    (runBatchAux provider rnd steps cache).2.2 ≤ steps.length := by
  induction steps generalizing cache with
  | nil => simp [runBatchAux]
  | cons s rest ih =>
    obtain ⟨fn, step⟩ := s
    cases step with
    | early r =>
      simp only [runBatchAux, List.length_cons]
      exact le_trans (ih cache) (Nat.le_succ _)
    | callProvider b e =>
      simp only [runBatchAux, List.length_cons]
      exact Nat.succ_le_succ (ih _)

theorem runBatchAux_no_rl (provider : Nat → List Char → ProviderOutcome)
    (rnd : Nat) (steps : List (List Char × SyncStep)) (cache : Cache)
    (hrl : ∀ r b, outcomeRateLimited (provider r b) = false)
    (hearly : ∀ fn r, (fn, SyncStep.early r) ∈ steps → r.rateLimited = false) :
    ∀ p ∈ (runBatchAux provider rnd steps cache).1, p.2.rateLimited = false := by
  induction steps generalizing cache with
  | nil => intro p hp; cases hp
  | cons s rest ih =>
    obtain ⟨fn, step⟩ := s
    cases step with
    | early r =>
      intro p hp
      simp only [runBatchAux, List.mem_cons] at hp
      cases hp with
      | inl he =>
        rw [he]
        exact hearly fn r (List.mem_cons_self _ _)
      | inr hm =>
        exact ih cache (fun fn' r' hmem => hearly fn' r' (List.mem_cons_of_mem _ hmem)) p hm
    | callProvider b e =>
      intro p hp
      simp only [runBatchAux, List.mem_cons] at hp
      cases hp with
      | inl he =>
        rw [he]
        simpa [tfFinish_rl] using hrl rnd b
      | inr hm =>
        exact ih _ (fun fn' r' hmem => hearly fn' r' (List.mem_cons_of_mem _ hmem)) p hm

theorem runBatch_length (provider : Nat → List Char → ProviderOutcome)
    (rnd : Nat) (cache : Cache) (batch : List (List Char)) :
    (runBatch provider rnd cache batch).1.length = batch.length := by
  unfold runBatch
  rw [runBatchAux_length, List.length_map]

theorem runBatch_calls_le (provider : Nat → List Char → ProviderOutcome)
    (rnd : Nat) (cache : Cache) (batch : List (List Char)) :
    (runBatch provider rnd cache batch).2.2 ≤ batch.length := by
  unfold runBatch
  calc (runBatchAux provider rnd (batch.map (fun fn => (fn, tfSync cache fn))) cache).2.2
      ≤ (batch.map (fun fn => (fn, tfSync cache fn))).length := runBatchAux_calls_le _ _ _ _
    _ = batch.length := List.length_map _ _

theorem runBatch_no_rl (provider : Nat → List Char → ProviderOutcome)
    (rnd : Nat) (cache : Cache) (batch : List (List Char))
    (hrl : ∀ r b, outcomeRateLimited (provider r b) = false) :
    ∀ p ∈ (runBatch provider rnd cache batch).1, p.2.rateLimited = false := by
  unfold runBatch
  refine runBatchAux_no_rl provider rnd _ cache hrl ?_
  intro fn r hmem
  simp only [List.mem_map] at hmem
  obtain ⟨fn', _, heq⟩ := hmem
  have h1 : fn' = fn := congrArg Prod.fst heq
  have h2 : tfSync cache fn' = SyncStep.early r := by
    have := congrArg Prod.snd heq
    simpa using this
  exact tfSync_early_not_rl cache fn' r h2

theorem length_filter_bool_partition {α : Type} (p : α → Bool) (l : List α) :
    (l.filter (fun x => decide (p x = false))).length + (l.filter p).length
      = l.length := by
  induction l with
  | nil => rfl
  | cons x xs ih =>
    cases hx : p x with
    | true =>
      rw [List.filter_cons_of_neg (by simp [hx]), List.filter_cons_of_pos hx]
      simp only [List.length_cons]
      omega
    | false =>
      rw [List.filter_cons_of_pos (by simp [hx]), List.filter_cons_of_neg (by simp [hx])]
      simp only [List.length_cons]
      omega

theorem schedStep_batch (cfg : BatchConfig)
    (provider : Nat → List Char → ProviderOutcome) (rnd : Nat) (st : SchedState) :
    (schedStep cfg provider rnd st).1.batch = st.queue.take cfg.batchSize := rfl

theorem schedStep_retried (cfg : BatchConfig)
    (provider : Nat → List Char → ProviderOutcome) (rnd : Nat) (st : SchedState) :
    (schedStep cfg provider rnd st).1.retried
      = ((runBatch provider rnd st.cache (st.queue.take cfg.batchSize)).1.filter
          (fun p => p.2.rateLimited)).map (fun p => p.1) := rfl

theorem schedStep_resolved (cfg : BatchConfig)
    (provider : Nat → List Char → ProviderOutcome) (rnd : Nat) (st : SchedState) :
    (schedStep cfg provider rnd st).1.resolvedR
      = (runBatch provider rnd st.cache (st.queue.take cfg.batchSize)).1.filter
          (fun p => p.2.rateLimited = false) := rfl

theorem schedStep_calls (cfg : BatchConfig)
    (provider : Nat → List Char → ProviderOutcome) (rnd : Nat) (st : SchedState) :
    (schedStep cfg provider rnd st).1.providerCalls
      = (runBatch provider rnd st.cache (st.queue.take cfg.batchSize)).2.2 := rfl

theorem schedStep_queue (cfg : BatchConfig)
    (provider : Nat → List Char → ProviderOutcome) (rnd : Nat) (st : SchedState) :
    (schedStep cfg provider rnd st).2.queue
      = ((runBatch provider rnd st.cache (st.queue.take cfg.batchSize)).1.filter
          (fun p => p.2.rateLimited)).map (fun p => p.1)
        ++ st.queue.drop cfg.batchSize := rfl

theorem schedStep_delay (cfg : BatchConfig)
    (provider : Nat → List Char → ProviderOutcome) (rnd : Nat) (st : SchedState) :
    (schedStep cfg provider rnd st).1.delay
      = (if (schedStep cfg provider rnd st).2.queue = [] then 0
         else if (runBatch provider rnd st.cache (st.queue.take cfg.batchSize)).1.any
             (fun p => p.2.rateLimited) then cfg.rateLimitDelayMs
         else cfg.batchDelayMs) := rfl

theorem schedStep_no_rl (cfg : BatchConfig)
    (provider : Nat → List Char → ProviderOutcome) (rnd : Nat) (st : SchedState)
    (hrl : ∀ r b, outcomeRateLimited (provider r b) = false) :
    (schedStep cfg provider rnd st).1.batch = st.queue.take cfg.batchSize
    ∧ (schedStep cfg provider rnd st).2.queue = st.queue.drop cfg.batchSize
    ∧ (schedStep cfg provider rnd st).1.batch.length ≤ cfg.batchSize
    ∧ (schedStep cfg provider rnd st).1.providerCalls ≤ cfg.batchSize := by
  have hres := runBatch_no_rl provider rnd st.cache (st.queue.take cfg.batchSize) hrl
  have hfilter :
      (runBatch provider rnd st.cache (st.queue.take cfg.batchSize)).1.filter
        (fun p => p.2.rateLimited) = [] := by
    rw [List.filter_eq_nil_iff]
    intro p hp
    simp [hres p hp]
  have hlen : (st.queue.take cfg.batchSize).length ≤ cfg.batchSize := by
    rw [List.length_take]
    exact min_le_left _ _
  refine ⟨rfl, ?_, hlen, ?_⟩
  · rw [schedStep_queue, hfilter]
    rfl
  · rw [schedStep_calls]
    exact le_trans (runBatch_calls_le provider rnd st.cache _) hlen

theorem processQueue_of_queue_nil (cfg : BatchConfig)
    (provider : Nat → List Char → ProviderOutcome) (fuel rnd : Nat)
    (st : SchedState) (h : st.queue = []) :
    processQueue cfg provider fuel rnd st = ([], st) := by
  cases fuel <;> simp [processQueue, h]

/-- C6: with a positive batch size and a provider that never rate-limits,
draining a nonempty queue of N items performs exactly `ceil(N / batchSize)`
rounds, each round's batch holds at most `batchSize` items and issues at most
`batchSize` provider calls, the concatenation of the rounds' batches is
exactly the original queue in enqueue order (each round is a contiguous
segment, so no item of a later round is dispatched before the earlier round
settled — the model serialises rounds exactly as the `await Promise.all`
barrier does), and the queue ends empty. Fuel of one unit per round is enough
since every round consumes at least one item. -/
theorem processQueue_batches (cfg : BatchConfig)
    (provider : Nat → List Char → ProviderOutcome) :
    ∀ (fuel : Nat) (st : SchedState) (rnd : Nat),
    1 ≤ cfg.batchSize → st.queue.length ≤ fuel → ¬ st.queue = [] →
    (∀ r b, outcomeRateLimited (provider r b) = false) →
    (processQueue cfg provider fuel rnd st).1.length
      = (st.queue.length + cfg.batchSize - 1) / cfg.batchSize
    ∧ (∀ L ∈ (processQueue cfg provider fuel rnd st).1,
        L.batch.length ≤ cfg.batchSize ∧ L.providerCalls ≤ cfg.batchSize)
    ∧ ((processQueue cfg provider fuel rnd st).1.map RoundLog.batch).flatten
        = st.queue
    ∧ (processQueue cfg provider fuel rnd st).2.queue = [] := by
  intro fuel
  induction fuel with
  | zero =>
    intro st rnd hbs hfuel hne hrl
    exact absurd (List.length_eq_zero.mp (Nat.le_zero.mp hfuel)) hne
  | succ fuel ih =>
    intro st rnd hbs hfuel hne hrl
    obtain ⟨hbatch, hqueue, hblen, hcalls⟩ := schedStep_no_rl cfg provider rnd st hrl
    have hstep : processQueue cfg provider (fuel + 1) rnd st
        = ((schedStep cfg provider rnd st).1
            :: (processQueue cfg provider fuel (rnd + 1)
                (schedStep cfg provider rnd st).2).1,
           (processQueue cfg provider fuel (rnd + 1)
                (schedStep cfg provider rnd st).2).2) := by
      simp [processQueue, hne]
    have hqpos : 1 ≤ st.queue.length := by
      cases hq : st.queue.length with
      | zero => exact absurd (List.length_eq_zero.mp hq) hne
      | succ n => omega
    by_cases hrest : st.queue.drop cfg.batchSize = []
    · have hlenle : st.queue.length ≤ cfg.batchSize := List.drop_eq_nil_iff.mp hrest
      have hrec : processQueue cfg provider fuel (rnd + 1)
          (schedStep cfg provider rnd st).2
          = ([], (schedStep cfg provider rnd st).2) :=
        processQueue_of_queue_nil cfg provider fuel (rnd + 1) _
          (by rw [hqueue]; exact hrest)
      rw [hstep, hrec]
      refine ⟨?_, ?_, ?_, ?_⟩
      · simp only [List.length_cons, List.length_nil]
        exact (Nat.div_eq_of_lt_le (by omega) (by omega)).symm
      · intro L hL
        simp only [List.mem_cons, List.not_mem_nil, or_false] at hL
        rw [hL]
        exact ⟨hblen, hcalls⟩
      · simp only [List.map_cons, List.map_nil, List.flatten_cons,
          List.flatten_nil, List.append_nil]
        rw [hbatch]
        exact List.take_of_length_le hlenle
      · rw [hqueue]
        exact hrest
    · have hlengt : cfg.batchSize < st.queue.length := by
        by_contra hle
        exact hrest (List.drop_eq_nil_iff.mpr (by omega))
      have hfuel' : (schedStep cfg provider rnd st).2.queue.length ≤ fuel := by
        rw [hqueue, List.length_drop]
        omega
      have hne' : ¬ (schedStep cfg provider rnd st).2.queue = [] := by
        rw [hqueue]
        exact hrest
      obtain ⟨ihlen, ihmem, ihjoin, ihfin⟩ :=
        ih (schedStep cfg provider rnd st).2 (rnd + 1) hbs hfuel' hne' hrl
      rw [hstep]
      refine ⟨?_, ?_, ?_, ihfin⟩
      · simp only [List.length_cons]
        rw [ihlen, hqueue, List.length_drop]
        have e2 : st.queue.length + cfg.batchSize - 1
            = (st.queue.length - 1) + cfg.batchSize := by omega
        have e3 : st.queue.length - cfg.batchSize + cfg.batchSize - 1
            = st.queue.length - 1 := by omega
        rw [e2, e3, Nat.add_div_right _ (by omega)]
      · intro L hL
        simp only [List.mem_cons] at hL
        cases hL with
        | inl he => rw [he]; exact ⟨hblen, hcalls⟩
        | inr hm => exact ihmem L hm
      · simp only [List.map_cons, List.flatten_cons]
        rw [ihjoin, hbatch, hqueue, List.take_append_drop]

/-- C1: in any scheduler round, the rate-limited items are exactly the ones
withheld from resolution (`retried`), they are reinserted at the front of the
pending queue, ahead of the items not yet pulled into a batch; the delay
before the next round equals `rateLimitDelayMs`; the items resolved in the
round are precisely the non-rate-limited ones and together with the retried
items they partition the batch (nothing is dropped); and the next round's
batch starts with exactly the retried items. -/
theorem rate_limited_requeued_front (cfg : BatchConfig)
    (provider : Nat → List Char → ProviderOutcome) (rnd : Nat) (st : SchedState)
    (hrl : ¬ (schedStep cfg provider rnd st).1.retried = []) :
    (schedStep cfg provider rnd st).2.queue
      = (schedStep cfg provider rnd st).1.retried
        ++ st.queue.drop cfg.batchSize
    ∧ (schedStep cfg provider rnd st).1.delay = cfg.rateLimitDelayMs
    ∧ (∀ p ∈ (schedStep cfg provider rnd st).1.resolvedR,
        p.2.rateLimited = false)
    ∧ (schedStep cfg provider rnd st).1.resolvedR.length
        + (schedStep cfg provider rnd st).1.retried.length
        = (schedStep cfg provider rnd st).1.batch.length
    ∧ (schedStep cfg provider (rnd + 1) (schedStep cfg provider rnd st).2).1.batch
        = (schedStep cfg provider rnd st).1.retried
          ++ (st.queue.drop cfg.batchSize).take
              (cfg.batchSize - (schedStep cfg provider rnd st).1.retried.length) := by
  have hq : (schedStep cfg provider rnd st).2.queue
      = (schedStep cfg provider rnd st).1.retried
        ++ st.queue.drop cfg.batchSize := by
    rw [schedStep_queue, schedStep_retried]
  have hany : (runBatch provider rnd st.cache
      (st.queue.take cfg.batchSize)).1.any (fun p => p.2.rateLimited) = true := by
    cases hA : (runBatch provider rnd st.cache
        (st.queue.take cfg.batchSize)).1.any (fun p => p.2.rateLimited) with
    | true => rfl
    | false =>
      have hall := List.any_eq_false.mp hA
      have hfil : (runBatch provider rnd st.cache
          (st.queue.take cfg.batchSize)).1.filter (fun p => p.2.rateLimited)
          = [] := List.filter_eq_nil_iff.mpr hall
      rw [schedStep_retried, hfil] at hrl
      exact absurd rfl hrl
  have hqne : ¬ (schedStep cfg provider rnd st).2.queue = [] := by
    rw [hq]
    intro hcontra
    exact hrl (List.append_eq_nil.mp hcontra).1
  have hretlen : (schedStep cfg provider rnd st).1.retried.length
      ≤ cfg.batchSize := by
    rw [schedStep_retried, List.length_map]
    calc ((runBatch provider rnd st.cache (st.queue.take cfg.batchSize)).1.filter
            (fun p => p.2.rateLimited)).length
        ≤ (runBatch provider rnd st.cache (st.queue.take cfg.batchSize)).1.length :=
          List.length_filter_le _ _
      _ = (st.queue.take cfg.batchSize).length := runBatch_length _ _ _ _
      _ ≤ cfg.batchSize := by
          rw [List.length_take]
          exact min_le_left _ _
  refine ⟨hq, ?_, ?_, ?_, ?_⟩
  · rw [schedStep_delay, if_neg hqne, hany]
    rfl
  · intro p hp
    rw [schedStep_resolved] at hp
    have := (List.mem_filter.mp hp).2
    exact of_decide_eq_true this
  · rw [schedStep_resolved, schedStep_retried, schedStep_batch, List.length_map]
    rw [← runBatch_length provider rnd st.cache (st.queue.take cfg.batchSize)]
    exact length_filter_bool_partition
      (fun q : List Char × TransResult => q.2.rateLimited) _
  · rw [schedStep_batch, hq, List.take_append_eq_append_take,
      List.take_of_length_le hretlen]

/-- Concrete scheduler configuration for the rate-limit witness, with
distinct `batchDelayMs` and `rateLimitDelayMs`. -/
def rlCfgW : BatchConfig := ⟨2, 7, 9⟩

/-- Provider that rate-limits every call of round 0 and succeeds
afterwards. -/
def rlProvW : Nat → List Char → ProviderOutcome := fun r _ =>
  if r = 0 then ProviderOutcome.failure ['e'] (JsStatusCode.num 429)
  else ProviderOutcome.success ['X']

/-- Initial scheduler state for the rate-limit witness: two Japanese
filenames, empty cache. -/
def rlStW : SchedState := ⟨[['あ'], ['い']], []⟩

/-- C1 witness: with a batch of two Japanese names both rate limited in round
0, the theorem's conclusions hold concretely, and the chosen delay is the
rate-limit delay (9), not the inter-batch delay (7). -/
theorem rate_limited_requeued_front_witness :
    ((schedStep rlCfgW rlProvW 0 rlStW).2.queue
      = (schedStep rlCfgW rlProvW 0 rlStW).1.retried
        ++ rlStW.queue.drop rlCfgW.batchSize
    ∧ (schedStep rlCfgW rlProvW 0 rlStW).1.delay = rlCfgW.rateLimitDelayMs
    ∧ (∀ p ∈ (schedStep rlCfgW rlProvW 0 rlStW).1.resolvedR,
        p.2.rateLimited = false)
    ∧ (schedStep rlCfgW rlProvW 0 rlStW).1.resolvedR.length
        + (schedStep rlCfgW rlProvW 0 rlStW).1.retried.length
        = (schedStep rlCfgW rlProvW 0 rlStW).1.batch.length
    ∧ (schedStep rlCfgW rlProvW (0 + 1) (schedStep rlCfgW rlProvW 0 rlStW).2).1.batch
        = (schedStep rlCfgW rlProvW 0 rlStW).1.retried
          ++ (rlStW.queue.drop rlCfgW.batchSize).take
              (rlCfgW.batchSize - (schedStep rlCfgW rlProvW 0 rlStW).1.retried.length))
    ∧ ¬ (schedStep rlCfgW rlProvW 0 rlStW).1.delay = rlCfgW.batchDelayMs :=
  ⟨rate_limited_requeued_front rlCfgW rlProvW 0 rlStW (by decide), by decide⟩

/-- Provider that always succeeds (never rate limits). -/
def noRlProvW : Nat → List Char → ProviderOutcome :=
  fun _ _ => ProviderOutcome.success ['X']

/-- Initial scheduler state for the batch-count witness: three Japanese
filenames, empty cache. -/
def noRlStW : SchedState := ⟨[['あ'], ['い'], ['う']], []⟩

/-- C6 witness: three items at batch size 2 with no rate limiting drain in
exactly two rounds (`ceil(3/2)`), batches concatenating to the original
queue. -/
theorem processQueue_batches_witness :
    (processQueue rlCfgW noRlProvW 3 0 noRlStW).1.length
      = (noRlStW.queue.length + rlCfgW.batchSize - 1) / rlCfgW.batchSize
    ∧ (∀ L ∈ (processQueue rlCfgW noRlProvW 3 0 noRlStW).1,
        L.batch.length ≤ rlCfgW.batchSize ∧ L.providerCalls ≤ rlCfgW.batchSize)
    ∧ ((processQueue rlCfgW noRlProvW 3 0 noRlStW).1.map RoundLog.batch).flatten
        = noRlStW.queue
    ∧ (processQueue rlCfgW noRlProvW 3 0 noRlStW).2.queue = [] :=
  processQueue_batches rlCfgW noRlProvW 3 noRlStW 0
    (by decide) (by decide) (by decide) (fun r b => rfl)

theorem emGet_emSet_ne (m : EntryMap) (k k' : List Char) (v : DbEntry)
    (h : ¬ k' = k) : emGet (emSet m k' v) k = emGet m k := by
  induction m with
  | nil => simp [emSet, emGet, h]
  | cons kv rest ih =>
    by_cases hk : kv.1 = k'
    · simp [emSet, emGet, hk, h]
    · simp [emSet, emGet, hk, ih]

theorem scanStep_fst_shape (now : List Char) (em : EntryMap) (fp' : List Char) :
    (scanStep now em fp').1 = em
    ∨ ∃ v, (scanStep now em fp').1 = emSet em fp' v := by
  simp only [scanStep]
  split_ifs <;> first
    | exact Or.inl rfl
    | exact Or.inr ⟨_, rfl⟩

theorem scanStep_item_path (now : List Char) (em : EntryMap) (fp' : List Char) :
    ∀ item ∈ (scanStep now em fp').2, item.filePath = fp' := by
  intro item h
  simp only [scanStep] at h
  split_ifs at h <;> first
    | exact absurd h (List.not_mem_nil _)
    | (rw [List.mem_singleton] at h; rw [h])

theorem scanStep_preserves (now : List Char) (em : EntryMap)
    (fp' fp : List Char) (e : DbEntry) (hg : emGet em fp = some e)
    (hn : e.file_name = pathBasename fp) (hs : e.status = statusTranslated) :
    emGet (scanStep now em fp').1 fp = some e
    ∧ ∀ item ∈ (scanStep now em fp').2, ¬ item.filePath = fp := by
  by_cases heq : fp' = fp
  · subst heq
    have hres : scanStep now em fp' = (em, []) := by
      simp [scanStep, hg, hn, hs]
    rw [hres]
    exact ⟨hg, fun item h => absurd h (List.not_mem_nil _)⟩
  · have hitems : ∀ item ∈ (scanStep now em fp').2, ¬ item.filePath = fp := by
      intro item h hcontra
      rw [scanStep_item_path now em fp' item h] at hcontra
      exact heq hcontra
    rcases scanStep_fst_shape now em fp' with hem | ⟨v, hem⟩
    · rw [hem]
      exact ⟨hg, hitems⟩
    · rw [hem, emGet_emSet_ne em fp fp' v heq]
      exact ⟨hg, hitems⟩

theorem scanFiles_resume (now : List Char) (files : List (List Char)) :
    ∀ (em : EntryMap) (fp : List Char) (e : DbEntry),
    emGet em fp = some e → e.file_name = pathBasename fp →
    e.status = statusTranslated →
    emGet (scanFiles now em files).1 fp = some e
    ∧ ∀ item ∈ (scanFiles now em files).2, ¬ item.filePath = fp := by
  induction files with
  | nil =>
    intro em fp e hg _ _
    exact ⟨hg, fun item h => absurd h (List.not_mem_nil _)⟩
  | cons fp' rest ih =>
    intro em fp e hg hn hs
    obtain ⟨hg', hitems⟩ := scanStep_preserves now em fp' fp e hg hn hs
    obtain ⟨ihg, ihitems⟩ := ih (scanStep now em fp').1 fp e hg' hn hs
    refine ⟨ihg, fun item h => ?_⟩
    simp only [scanFiles, List.mem_append] at h
    cases h with
    | inl hmem => exact hitems item hmem
    | inr hmem => exact ihitems item hmem

theorem genAttempt_frame (now : List Char) (o : ProviderOutcome)
    (em : EntryMap) (item : TransItem) (fp : List Char)
    (h : ¬ item.filePath = fp) :
    emGet (genAttempt now o em item).1 fp = emGet em fp := by
  cases o with
  | success text => exact emGet_emSet_ne em fp item.filePath _ h
  | failure msg code =>
    by_cases hrl : isRateLimitedCode code = true
    · simp [genAttempt, hrl]
    · simp only [genAttempt, hrl, if_false, Bool.false_eq_true]
      exact emGet_emSet_ne em fp item.filePath _ h

theorem genWave_frame (provider : Nat → List Char → ProviderOutcome) (t : Nat)
    (now : List Char) : ∀ (pending : List TransItem) (em : EntryMap)
    (fp : List Char), (∀ item ∈ pending, ¬ item.filePath = fp) →
    emGet (genWave provider t now em pending).1 fp = emGet em fp
    ∧ (∀ item ∈ (genWave provider t now em pending).2.1, item ∈ pending)
    ∧ (∀ q ∈ (genWave provider t now em pending).2.2, ¬ q = fp) := by
  intro pending
  induction pending with
  | nil =>
    intro em fp _
    exact ⟨rfl, fun item h => absurd h (List.not_mem_nil _),
      fun q h => absurd h (List.not_mem_nil _)⟩
  | cons item rest ih =>
    intro em fp hprop
    have hitem : ¬ item.filePath = fp := hprop item (List.mem_cons_self _ _)
    have hrest : ∀ i ∈ rest, ¬ i.filePath = fp :=
      fun i hmem => hprop i (List.mem_cons_of_mem _ hmem)
    obtain ⟨ihg, ihret, ihcalls⟩ :=
      ih (genAttempt now (provider t item.baseName) em item).1 fp hrest
    refine ⟨?_, ?_, ?_⟩
    · show emGet (genWave provider t now
        (genAttempt now (provider t item.baseName) em item).1 rest).1 fp
        = emGet em fp
      rw [ihg]
      exact genAttempt_frame now _ em item fp hitem
    · intro i hmem
      simp only [genWave, List.mem_append] at hmem
      cases hmem with
      | inl hif =>
        by_cases hb : (genAttempt now (provider t item.baseName) em item).2 = true
        · rw [hb] at hif
          simp only [if_true, List.mem_singleton] at hif
          rw [hif]
          exact List.mem_cons_self _ _
        · rw [Bool.not_eq_true] at hb
          rw [hb] at hif
          simp at hif
      | inr hmemr => exact List.mem_cons_of_mem _ (ihret i hmemr)
    · intro q hmem
      simp only [genWave, List.mem_cons] at hmem
      cases hmem with
      | inl hq => rw [hq]; exact hitem
      | inr hmemr => exact ihcalls q hmemr

theorem genPending_frame (provider : Nat → List Char → ProviderOutcome)
    (now : List Char) : ∀ (fuel t : Nat) (em : EntryMap)
    (pending : List TransItem) (fp : List Char),
    (∀ item ∈ pending, ¬ item.filePath = fp) →
    emGet (genPending provider now fuel t em pending).1 fp = emGet em fp
    ∧ ∀ q ∈ (genPending provider now fuel t em pending).2.1, ¬ q = fp := by
  intro fuel
  induction fuel with
  | zero =>
    intro t em pending fp _
    exact ⟨rfl, fun q h => absurd h (List.not_mem_nil _)⟩
  | succ fuel ih =>
    intro t em pending fp hprop
    cases pending with
    | nil => exact ⟨rfl, fun q h => absurd h (List.not_mem_nil _)⟩
    | cons item rest =>
      obtain ⟨wg, wret, wcalls⟩ :=
        genWave_frame provider t now (item :: rest) em fp hprop
      have hretprop : ∀ i ∈ (genWave provider t now em (item :: rest)).2.1,
          ¬ i.filePath = fp := fun i hmem => hprop i (wret i hmem)
      obtain ⟨ihg, ihcalls⟩ := ih (t + 1)
        (genWave provider t now em (item :: rest)).1
        (genWave provider t now em (item :: rest)).2.1 fp hretprop
      refine ⟨?_, ?_⟩
      · show emGet (genPending provider now fuel (t + 1)
          (genWave provider t now em (item :: rest)).1
          (genWave provider t now em (item :: rest)).2.1).1 fp = emGet em fp
        rw [ihg, wg]
      · intro q hmem
        have hmem' : q ∈ (genWave provider t now em (item :: rest)).2.2
            ++ (genPending provider now fuel (t + 1)
                (genWave provider t now em (item :: rest)).1
                (genWave provider t now em (item :: rest)).2.1).2.1 := hmem
        rw [List.mem_append] at hmem'
        cases hmem' with
        | inl h1 => exact wcalls q h1
        | inr h2 => exact ihcalls q h2

theorem genBatches_frame (provider : Nat → List Char → ProviderOutcome)
    (now : List Char) (fuelW bs : Nat) : ∀ (fuelB t : Nat) (em : EntryMap)
    (items : List TransItem) (fp : List Char),
    (∀ item ∈ items, ¬ item.filePath = fp) →
    emGet (genBatches provider now fuelW bs fuelB t em items).1 fp = emGet em fp
    ∧ ∀ q ∈ (genBatches provider now fuelW bs fuelB t em items).2, ¬ q = fp := by
  intro fuelB
  induction fuelB with
  | zero =>
    intro t em items fp _
    exact ⟨rfl, fun q h => absurd h (List.not_mem_nil _)⟩
  | succ fuelB ih =>
    intro t em items fp hprop
    cases items with
    | nil => exact ⟨rfl, fun q h => absurd h (List.not_mem_nil _)⟩
    | cons item rest =>
      have htake : ∀ i ∈ (item :: rest).take bs, ¬ i.filePath = fp :=
        fun i h => hprop i (List.mem_of_mem_take h)
      have hdrop : ∀ i ∈ (item :: rest).drop bs, ¬ i.filePath = fp :=
        fun i h => hprop i (List.mem_of_mem_drop h)
      obtain ⟨pg, pcalls⟩ :=
        genPending_frame provider now fuelW t em ((item :: rest).take bs) fp htake
      obtain ⟨ig, icalls⟩ := ih
        (genPending provider now fuelW t em ((item :: rest).take bs)).2.2
        (genPending provider now fuelW t em ((item :: rest).take bs)).1
        ((item :: rest).drop bs) fp hdrop
      refine ⟨?_, ?_⟩
      · show emGet (genBatches provider now fuelW bs fuelB
            (genPending provider now fuelW t em ((item :: rest).take bs)).2.2
            (genPending provider now fuelW t em ((item :: rest).take bs)).1
            ((item :: rest).drop bs)).1 fp = emGet em fp
        rw [ig, pg]
      · intro q hmem
        have hmem' : q ∈ (genPending provider now fuelW t em
              ((item :: rest).take bs)).2.1
            ++ (genBatches provider now fuelW bs fuelB
                (genPending provider now fuelW t em ((item :: rest).take bs)).2.2
                (genPending provider now fuelW t em ((item :: rest).take bs)).1
                ((item :: rest).drop bs)).2 := hmem
        rw [List.mem_append] at hmem'
        cases hmem' with
        | inl h1 => exact pcalls q h1
        | inr h2 => exact icalls q h2

/-- C4: for every file whose existing database entry has the same `file_name`
and status `translated`, a bulk generator run over a directory containing
that file performs zero provider calls for it (its path never appears among
the issued provider-call paths) and leaves its entry unchanged in the output
database, whatever the other files, the provider behaviour, the batch size
and the retry fuel. -/
theorem generator_resume_skip (provider : Nat → List Char → ProviderOutcome)
    (now : List Char) (fuelW fuelB bs : Nat) (entries : List DbEntry)
    (files : List (List Char)) (fp : List Char) (e : DbEntry)
    (hg : emGet (buildEntryMap entries) fp = some e)
    (hn : e.file_name = pathBasename fp) (hs : e.status = statusTranslated) :
    emGet (genRun provider now fuelW fuelB bs entries files).1 fp = some e
    ∧ ∀ q ∈ (genRun provider now fuelW fuelB bs entries files).2, ¬ q = fp := by
  obtain ⟨sg, sitems⟩ :=
    scanFiles_resume now files (buildEntryMap entries) fp e hg hn hs
  by_cases hempty : (scanFiles now (buildEntryMap entries) files).2 = []
  · have hrun : genRun provider now fuelW fuelB bs entries files
        = ((scanFiles now (buildEntryMap entries) files).1, []) := by
      simp [genRun, hempty]
    rw [hrun]
    exact ⟨sg, fun q h => absurd h (List.not_mem_nil _)⟩
  · have hrun : genRun provider now fuelW fuelB bs entries files
        = genBatches provider now fuelW bs fuelB 0
            (scanFiles now (buildEntryMap entries) files).1
            (scanFiles now (buildEntryMap entries) files).2 := by
      simp [genRun, hempty]
    obtain ⟨bg, bcalls⟩ := genBatches_frame provider now fuelW bs fuelB 0
      (scanFiles now (buildEntryMap entries) files).1
      (scanFiles now (buildEntryMap entries) files).2 fp sitems
    rw [hrun]
    exact ⟨by rw [bg]; exact sg, bcalls⟩

/-- Database entry of the resume witness, matching the claim's scenario:
path `/a.jpg`, same file name, status `translated`. -/
def resumeEntryW : DbEntry :=
  ⟨['/', 'a', '.', 'j', 'p', 'g'], ['a', '.', 'j', 'p', 'g'],
   some ['X', '.', 'j', 'p', 'g'], statusTranslated, none, ['t']⟩

/-- Provider for the resume witness (its behaviour is irrelevant: it is never
consulted for the resumed file). -/
def genProvW : Nat → List Char → ProviderOutcome :=
  fun _ _ => ProviderOutcome.success ['Y']

/-- C4 witness: a database with the single entry for `/a.jpg` and a directory
walk yielding exactly that file — the run issues no provider call for the
path and the entry survives unchanged. -/
theorem generator_resume_skip_witness :
    emGet (genRun genProvW ['u'] 2 2 1 [resumeEntryW]
      [['/', 'a', '.', 'j', 'p', 'g']]).1 ['/', 'a', '.', 'j', 'p', 'g']
      = some resumeEntryW
    ∧ ∀ q ∈ (genRun genProvW ['u'] 2 2 1 [resumeEntryW]
      [['/', 'a', '.', 'j', 'p', 'g']]).2, ¬ q = ['/', 'a', '.', 'j', 'p', 'g'] :=
  generator_resume_skip genProvW ['u'] 2 2 1 [resumeEntryW]
    [['/', 'a', '.', 'j', 'p', 'g']] ['/', 'a', '.', 'j', 'p', 'g'] resumeEntryW
    (by decide) (by decide) (by decide)

/-- Sanity facts of the embedded `path.extname` against Node's documented
behaviour on its edge cases, and of the script detector. -/
theorem extname_node_edge_cases :
    extname ['a', '.', 't', 'x', 't'] = ['.', 't', 'x', 't']
    ∧ extname ['.', 'b', 'a', 's', 'h', 'r', 'c'] = []
    ∧ extname ['.', '.'] = []
    ∧ extname ['.', '.', '.'] = ['.']
    ∧ extname ['a', '.'] = ['.']
    ∧ extname ['a'] = []
    ∧ baseOf ['あ', '.', 'j', 'p', 'g'] = ['あ']
    ∧ isJapanese ['あ'] = true
    ∧ isJapanese ['a', 'b'] = false := by
  decide
